import Mathlib

/-!
A shallow embedding of the `circleci-cli` command line tool (`main.go`) in
Lean 4, together with theorems settling the specification's claims about it.

Go strings are modelled as lists of characters (`GoStr`); the helpers of Go's
`strings` package that `main.go` uses (`SplitN`, `Split`, `Fields`,
`HasPrefix`, `TrimSuffix`, `TrimSpace`, `Join`) are reimplemented on that
model.  Process-level effects are made explicit: functions that print to
standard error and exit return the message and exit code as data, and the
possible outcomes of a command action (normal value, `os.Exit`, runtime
panic) are an explicit `Outcome` type.  All program definitions live in the
`Circleci` namespace; the source names of `main.go` are kept.
-/

/-- A Go string, modelled as a list of characters. -/
abbrev GoStr := List Char

/-- Coerce a Lean string literal to the `GoStr` model. -/
def gs (s : String) : GoStr := s.toList

/-- Split a character list at the first occurrence of `sep`: returns the
part before the separator and, when the separator occurs, the part after it. -/
def splitFirst (sep : Char) : List Char → List Char × Option (List Char)
  | [] => ([], none)
  | c :: cs =>
    if c = sep then ([], some cs)
    else
      let r := splitFirst sep cs
      (c :: r.1, r.2)

/-- Go's `strings.SplitN(s, sep, 2)` for a one-character separator:
`[s]` when `sep` does not occur in `s`, otherwise the two pieces around the
first occurrence. -/
def goSplitN2 (sep : Char) (s : GoStr) : List GoStr :=
  match splitFirst sep s with
  | (pre, none) => [pre]
  | (pre, some post) => [pre, post]

/-- Split a character list at every character satisfying `p`; the result
always has at least one element (splitting the empty list gives `[[]]`). -/
def splitOnPred (p : Char → Bool) : List Char → List (List Char)
  | [] => [[]]
  | c :: cs =>
    let r := splitOnPred p cs
    if p c then [] :: r
    else
      match r with
      | [] => [[c]]
      | x :: xs => (c :: x) :: xs

/-- Go's `strings.Split(s, sep)` for a one-character separator: splits at
every occurrence of `sep`; the result always has at least one element. -/
def goSplit (sep : Char) (s : GoStr) : List GoStr :=
  splitOnPred (fun c => c = sep) s

/-- Whitespace as recognised by Go's `unicode.IsSpace` (the ASCII part, which
is what can occur in `git remote -v` output and flag values). -/
def isGoSpace (c : Char) : Bool :=
  c = ' ' || c = '\t' || c = '\n' || (c = Char.ofNat 11) || (c = Char.ofNat 12) || (c = Char.ofNat 13)

/-- Go's `strings.Fields`: the maximal runs of non-whitespace characters. -/
def goFields (s : GoStr) : List GoStr :=
  (splitOnPred isGoSpace s).filter (fun x => !x.isEmpty)

/-- Does `s` start with `p`?  Go's `strings.HasPrefix(s, p)`. -/
def goStartsWith (p s : GoStr) : Bool :=
  match p, s with
  | [], _ => true
  | _ :: _, [] => false
  | a :: as_, b :: bs => a = b && goStartsWith as_ bs

/-- Go's `strings.TrimSuffix(s, suf)`: drop a trailing `suf` when present. -/
def goTrimSuffix (s suf : GoStr) : GoStr :=
  if goStartsWith suf.reverse s.reverse then ((s.reverse).drop suf.length).reverse else s

/-- Go's `strings.TrimSpace`: drop whitespace from both ends. -/
def goTrimSpace (s : GoStr) : GoStr :=
  ((s.dropWhile isGoSpace).reverse.dropWhile isGoSpace).reverse

/-- A single-quote character, used in rendered error messages. -/
def sqc : Char := Char.ofNat 39

namespace Circleci

/-- Type `Project` from `main.go`: the `<account>/<repo>` pair parsed from CLI
flags or resolved from the git remote listing. -/
structure Project where
  Account : GoStr
  Repository : GoStr
deriving DecidableEq

/-- The zero value `Project{}` that every failure path falls back to. -/
def emptyProject : Project := { Account := [], Repository := [] }

/-- The error message `Project.Set` produces, from
`fmt.Errorf("could not parse %s as '<account>/<repo>'", value)`. -/
def projectSetErr (value : GoStr) : GoStr :=
  gs "could not parse " ++ value ++ gs " as " ++ [sqc] ++ gs "<account>/<repo>" ++ [sqc]

/-- Method `Project.Set` from `main.go`: split the value on the first `/`; with no
`/` return an error leaving the receiver unchanged, otherwise store the two
parts.  The result is the new receiver state paired with the error, if any. -/
def Project.Set (p : Project) (value : GoStr) : Project × Option GoStr :=
  let parts := goSplitN2 '/' value
  if parts.length < 2 then
    (p, some (projectSetErr value))
  else
    ({ Account := parts.getD 0 [], Repository := parts.getD 1 [] }, none)

/-- Method `Project.String` from `main.go`: empty when both fields are empty,
otherwise `Account/Repository`. -/
def Project.String (p : Project) : GoStr :=
  if p.Account = [] ∧ p.Repository = [] then []
  else p.Account ++ '/' :: p.Repository

/-- Type `Filter` from `main.go`: a build-status filter, a string validated by
`Filter.Set`. -/
structure Filter where
  val : GoStr
deriving DecidableEq

/-- Variable `validFilters` from `main.go`. -/
def validFilters : List GoStr :=
  [gs "completed", gs "successful", gs "failed", gs "running"]

/-- The error message `Filter.Set` produces, from
`fmt.Errorf("must be one of %s", strings.Join(validFilters, ","))`. -/
def filterSetErr : GoStr :=
  gs "must be one of completed,successful,failed,running"

/-- Method `Filter.Set` from `main.go`: accept the value when it equals one of
`validFilters` (storing it in the receiver), otherwise return an error
leaving the receiver unchanged. -/
def Filter.Set (f : Filter) (value : GoStr) : Filter × Option GoStr :=
  match validFilters.find? (fun filter => filter = value) with
  | some _ => (⟨value⟩, none)
  | none => (f, some filterSetErr)

/-- Method `Filter.String` from `main.go`: the underlying string. -/
def Filter.String (f : Filter) : GoStr := f.val

/-- The warning printed when no `origin` line is found in `git remote -v`
output (from `main.go`, trailing line terminator omitted). -/
def warnNoOrigin : GoStr :=
  gs "warning: could not determine current project: no origin set"

/-- The warning printed when the `origin` line does not have exactly three
fields (from `main.go`, trailing line terminator omitted). -/
def warnFields (line : GoStr) : GoStr :=
  gs "warning: could not determine current project, unexpected number of fields in " ++ line

/-- The warning printed when the URL field of the `origin` line has fewer
than two `/`-separated parts (from `main.go`; note the doubled space, which
is present in the source format string verbatim). -/
def warnSlash (urlField : GoStr) : GoStr :=
  gs "warning: could not determine current project, expected  / in " ++ urlField

/-- The body of `getCurrentProject`'s loop once a line starting with
`origin` has been found: check the field count, split the URL field on `:`
then `/`, and take the last two parts as account and repository (stripping a
trailing `.git`).  Returns the project and the warnings printed. -/
def parseOriginLine (line : GoStr) : Project × List GoStr :=
  let fields := goFields line
  if fields.length ≠ 3 then (emptyProject, [warnFields line])
  else
    let colonParts := goSplit ':' (fields.getD 1 [])
    let parts := goSplit '/' (colonParts.getLastD [])
    if parts.length < 2 then (emptyProject, [warnSlash (fields.getD 1 [])])
    else ({ Account := parts.getD (parts.length - 2) [],
            Repository := goTrimSuffix (parts.getLastD []) (gs ".git") }, [])

/-- Function `getCurrentProject` from `main.go`, over the lines of a successful
`git remote -v` invocation: scan for the first line that starts with
`origin` and parse it; with no such line fall back to the empty project
with a warning.  Returns the project and the warnings printed to stderr. -/
def getCurrentProject : List GoStr → Project × List GoStr
  | [] => (emptyProject, [warnNoOrigin])
  | line :: rest =>
    if goStartsWith (gs "origin") line then parseOriginLine line
    else getCurrentProject rest

/-- The error type delivered by the CircleCI API client library: either a
`*circleci.APIError` carrying an HTTP status code, or any other error, whose
`Error()` text is its message. -/
inductive ClientError where
  | api (HTTPStatusCode : Nat) (message : GoStr)
  | other (message : GoStr)
deriving DecidableEq

/-- The message `handleClientError` prints for a 401/403 with no token
configured (from `main.go`). -/
def noTokenMsg : GoStr :=
  gs "unauthorized -- please supply API token either using -t or using the CIRCLE_TOKEN environment variable"

/-- The message `handleClientError` prints for a 401/403 when a token was
supplied (from `main.go`). -/
def badTokenMsg : GoStr :=
  gs "unauthorized -- supplied API token is not valid for this action"

/-- Function `handleClientError` from `main.go`.  Called with `nil` it returns
without doing anything (`none`); otherwise it prints a message to stderr and
calls `os.Exit(1)`, modelled as `some (message, exitCode)`.  `token` is the
configured `Client.Token`. -/
def handleClientError (token : GoStr) : Option ClientError → Option (GoStr × Nat)
  | none => none
  | some (.api status msg) =>
    if status = 401 ∨ status = 403 then
      if token = [] then some (noTokenMsg, 1) else some (badTokenMsg, 1)
    else some (msg, 1)
  | some (.other msg) => some (msg, 1)

/-- The result of running (part of) a command action: a normal value, a
process exit via `os.Exit`, or a Go runtime panic. -/
inductive Outcome (α : Type) where
  | ok (a : α)
  | exit (code : Nat) (stderr : GoStr)
  | panic (msg : GoStr)
deriving DecidableEq

/-- A call `handleClientError(err)` followed by the rest of the action `k`:
when the handler exits, `k` is never reached. -/
def runHandleClientError (token : GoStr) (err : Option ClientError) (k : Outcome α) : Outcome α :=
  match handleClientError token err with
  | some (m, c) => Outcome.exit c m
  | none => k

/-- A CircleCI build; only the fields the embedded code inspects. -/
structure Build where
  BuildNum : Int
deriving DecidableEq

/-- Function `latestBuild` from `main.go`: `api` is the result of
`Client.ListRecentBuildsForProject(account, repo, "", "", 1, 0)`.  On an API
error `handleClientError(err)` exits; when the call succeeds with zero
builds the code calls `handleClientError(err)` again — but `err` is `nil`
there, so the handler returns and `builds[0]` is evaluated on an empty
slice. -/
def latestBuild (token : GoStr) (api : Except ClientError (List Build)) : Outcome Build :=
  let builds : List Build := match api with | .ok bs => bs | .error _ => []
  let err : Option ClientError := match api with | .ok _ => none | .error e => some e
  let indexZero : Outcome Build :=
    match builds with
    | [] => Outcome.panic (gs "runtime error: index out of range")
    | b :: _ => Outcome.ok b
  let emptyCheck : Outcome Build :=
    if builds.length = 0 then runHandleClientError token err indexZero else indexZero
  if err.isSome then runHandleClientError token err emptyCheck else emptyCheck

/-- The inline default-build-number resolution used by the `show` and
`list-artifacts` actions in `main.go`: on an API error the handler exits;
with zero builds it prints `no builds` and exits 1; otherwise it uses
`builds[0].BuildNum`. -/
def inlineLatestBuildNum (token : GoStr) (api : Except ClientError (List Build)) : Outcome Int :=
  let builds : List Build := match api with | .ok bs => bs | .error _ => []
  let err : Option ClientError := match api with | .ok _ => none | .error e => some e
  let indexZero : Outcome Int :=
    match builds with
    | [] => Outcome.panic (gs "runtime error: index out of range")
    | b :: _ => Outcome.ok b.BuildNum
  let emptyCheck : Outcome Int :=
    if builds.length = 0 then Outcome.exit 1 (gs "no builds") else indexZero
  if err.isSome then runHandleClientError token err emptyCheck else emptyCheck

/-- The incompatibility check the `recent-builds` action runs when `--all`
is set (from `main.go`): iterate over the flag names `project`, `branch`,
`status` and, at the first one that is explicitly set, print
`--<name> cannot be used with --all` and exit 1.  Note that the list names
`status`, although the declared flag is called `filter`; no flag named
`status` exists, so `c.IsSet("status")` is false in every invocation. -/
def recentBuildsIncompatible (isSet : GoStr → Bool) : Option GoStr :=
  (([gs "project", gs "branch", gs "status"]).find? isSet).map
    (fun flag => gs "--" ++ flag ++ gs " cannot be used with --all")

/-- How far the `recent-builds` action gets before (or into) its network
call. -/
inductive RecentBuildsOutcome where
  | earlyExit (code : Nat) (stderr : GoStr)
  | apiAllBuilds
  | apiProjectBuilds
deriving DecidableEq

/-- The `recent-builds` action from `main.go` up to its API call: with
`--all`, run the incompatibility check and exit early when it fires,
otherwise call `Client.ListRecentBuilds`; without `--all` call
`Client.ListRecentBuildsForProject`.  `isSet` is `c.IsSet` restricted to
flag names, and is false on any name that is not a declared flag. -/
def recentBuildsAction (all : Bool) (isSet : GoStr → Bool) : RecentBuildsOutcome :=
  if all then
    match recentBuildsIncompatible isSet with
    | some msg => RecentBuildsOutcome.earlyExit 1 msg
    | none => RecentBuildsOutcome.apiAllBuilds
  else RecentBuildsOutcome.apiProjectBuilds

/-- The error message `app.Before` produces for an unrecognised `--color`
value, from `fmt.Errorf("unexpected --color value: %q", ...)`. -/
def colorModeErr (colorFlag : GoStr) : GoStr :=
  gs "unexpected --color value: \"" ++ colorFlag ++ gs "\""

/-- The error message `app.Before` produces when the token file cannot be
read, from `fmt.Errorf("unable to read token-file: %s", err)`. -/
def tokenFileErr (ioErr : GoStr) : GoStr :=
  gs "unable to read token-file: " ++ ioErr

/-- The token-resolution part of `app.Before` in `main.go`: when `--token`
is empty and `--token-file` is set, read the file (failure is an error),
trim whitespace, and use the contents; otherwise use `--token`.  The
successful result is the token stored into the `Client`. -/
def beforeResolveToken (token tokenFile : GoStr) (readTokenFile : Except GoStr GoStr) :
    Except GoStr GoStr :=
  if token = [] ∧ tokenFile ≠ [] then
    match readTokenFile with
    | Except.error e => Except.error (tokenFileErr e)
    | Except.ok contents => Except.ok (goTrimSpace contents)
  else Except.ok token

/-- Hook `app.Before` from `main.go`: validate the `--color` mode (`always`,
`never` and `auto` are accepted, anything else is an error), then resolve
the token.  (The `color.NoColor` assignment and URL construction have no
bearing on the error behaviour and are not modelled.) -/
def appBefore (colorFlag token tokenFile : GoStr) (readTokenFile : Except GoStr GoStr) :
    Except GoStr GoStr :=
  if colorFlag = gs "always" then beforeResolveToken token tokenFile readTokenFile
  else if colorFlag = gs "never" then beforeResolveToken token tokenFile readTokenFile
  else if colorFlag ≠ gs "auto" then Except.error (colorModeErr colorFlag)
  else beforeResolveToken token tokenFile readTokenFile

/-- The contract of the cli library's `app.Run` as `main.go` relies on it:
when `app.Before` returns an error, `Run` stops before the command action
and returns that error to the caller; otherwise the action runs (actions in
this program exit the process themselves on failure, so a completed action
yields no error). -/
def appRun (before : Except GoStr GoStr) (action : GoStr → Option GoStr) : Option GoStr :=
  match before with
  | Except.error e => some e
  | Except.ok token => action token

/-- The tail of `main` in `main.go`: `if err := app.Run(os.Args); err != nil
{ fmt.Fprint(os.Stderr, err) }`.  The error is printed but `os.Exit` is
never called, so `main` returns and the process exit status is 0 either
way.  Result: (exit status, stderr output). -/
def mainRun (runResult : Option GoStr) : Nat × GoStr :=
  match runResult with
  | some e => (0, e)
  | none => (0, [])

/-- The parse of the matched remote line, written from the spec's wording
for claims C6/C7: take the line's three fields, split the URL field on `:`
then `/`, take the last two path segments as account and repository, and
strip a trailing `.git` from the repository; any deviation from the
three-field shape or fewer than two path segments falls back to the empty
project with a warning.  For comparison with `parseOriginLine`. -/
def specParseOriginLine (line : GoStr) : Project × List GoStr :=
  match goFields line with
  | [_, urlField, _] =>
    (match (goSplit '/' ((goSplit ':' urlField).getLastD [])).reverse with
     | repo :: account :: _ =>
       ({ Account := account, Repository := goTrimSuffix repo (gs ".git") }, [])
     | _ => (emptyProject, [warnSlash urlField]))
  | _ => (emptyProject, [warnFields line])

/-- Claim C7's scan exactly as worded: the relevant line is the first one
whose first field is `origin`. -/
def claimC7Resolve (lines : List GoStr) : Project × List GoStr :=
  match lines.find? (fun line => (goFields line).headD [] = gs "origin") with
  | some line => specParseOriginLine line
  | none => (emptyProject, [warnNoOrigin])

/-- The amended scan: the relevant line is the first one that starts with
`origin`, as the code's `strings.HasPrefix` check does. -/
def specResolveProject (lines : List GoStr) : Project × List GoStr :=
  match lines.find? (fun line => goStartsWith (gs "origin") line) with
  | some line => specParseOriginLine line
  | none => (emptyProject, [warnNoOrigin])

end Circleci

/-- Lemma: `splitFirst` on a list not containing the separator returns the whole
list with no remainder. -/
theorem splitFirst_of_not_mem (sep : Char) (s : List Char) (h : sep ∉ s) :
    splitFirst sep s = (s, none) := by
  induction s with
  | nil => simp [splitFirst]
  | cons c cs ih =>
    simp only [List.mem_cons, not_or] at h
    have hc : ¬ c = sep := fun hq => h.1 hq.symm
    simp [splitFirst, hc, ih h.2]

/-- Lemma: `splitFirst` on a list containing the separator splits it around the
first occurrence. -/
theorem splitFirst_of_mem (sep : Char) (s : List Char) (h : sep ∈ s) :
    ∃ pre post, splitFirst sep s = (pre, some post) ∧ s = pre ++ sep :: post ∧ sep ∉ pre := by
  induction s with
  | nil => cases h
  | cons c cs ih =>
    by_cases hc : c = sep
    · exact ⟨[], cs, by simp [splitFirst, hc], by simp [hc], by simp⟩
    · have hmem : sep ∈ cs := by
        rcases List.mem_cons.mp h with h1 | h2
        · exact absurd h1.symm hc
        · exact h2
      obtain ⟨pre, post, h1, h2, h3⟩ := ih hmem
      refine ⟨c :: pre, post, ?_, ?_, ?_⟩
      · simp [splitFirst, hc, h1]
      · simp [h2]
      · simp only [List.mem_cons, not_or]
        exact ⟨fun hq => hc hq.symm, h3⟩

namespace Circleci

/-- Claim C4 fails as stated: the input `"/"` contains a `/` and
`Project.Set` accepts it, but re-serializing gives the empty string, not
`"/"` (both parsed fields are empty, so `Project.String` takes its
empty-project branch). -/
theorem c4_counterexample :
    '/' ∈ gs "/" ∧ Project.Set emptyProject (gs "/") = (emptyProject, none) ∧
      Project.String ((Project.Set emptyProject (gs "/")).1) ≠ gs "/" := by
  decide

/-- Claim C4, amended: for every string containing at least one `/` other
than the one-character string `"/"` itself, `Project.Set` succeeds and
`Project.String` of the result yields the original string; in particular
`"myorg/myrepo"` parses to account `myorg` and repository `myrepo` and
re-serializes to `"myorg/myrepo"`. -/
theorem c4_project_roundtrip_amended :
    (∀ (p : Project) (value : GoStr), '/' ∈ value → value ≠ gs "/" →
      (Project.Set p value).2 = none ∧
        Project.String ((Project.Set p value).1) = value) ∧
      Project.Set emptyProject (gs "myorg/myrepo")
        = ({ Account := gs "myorg", Repository := gs "myrepo" }, none) := by
  refine ⟨?_, by decide⟩
  intro p value hmem hne
  obtain ⟨pre, post, h1, h2, _⟩ := splitFirst_of_mem '/' value hmem
  have hset : Project.Set p value = ({ Account := pre, Repository := post }, none) := by
    simp [Project.Set, goSplitN2, h1]
  refine ⟨by simp [hset], ?_⟩
  rw [hset]
  have hnotboth : ¬ (pre = [] ∧ post = []) := by
    rintro ⟨hp, hq⟩
    exact hne (by simp [h2, hp, hq, gs])
  simp only [Project.String, hnotboth, if_false]
  exact h2.symm

/-- Witness for claim C4's amended theorem at the concrete input
`"myorg/myrepo"`. -/
theorem c4_witness :
    (Project.Set emptyProject (gs "myorg/myrepo")).2 = none ∧
      Project.String ((Project.Set emptyProject (gs "myorg/myrepo")).1) = gs "myorg/myrepo" :=
  c4_project_roundtrip_amended.1 emptyProject (gs "myorg/myrepo") (by decide) (by decide)

/-- Claim C9: for every string without a `/`, `Project.Set` fails with the
descriptive parse error and returns the receiver unchanged (both fields
untouched). -/
theorem c9_project_set_no_slash_error (p : Project) (value : GoStr) (h : '/' ∉ value) :
    Project.Set p value = (p, some (projectSetErr value)) := by
  simp [Project.Set, goSplitN2, splitFirst_of_not_mem '/' value h]

/-- Witness for claim C9 at the concrete input `"norepo"` and a nonempty
receiver. -/
theorem c9_witness :
    Project.Set { Account := gs "a", Repository := gs "b" } (gs "norepo")
      = ({ Account := gs "a", Repository := gs "b" }, some (projectSetErr (gs "norepo"))) :=
  c9_project_set_no_slash_error { Account := gs "a", Repository := gs "b" } (gs "norepo") (by decide)

/-- Claim C10: `Project.String` returns the empty string exactly when both
fields are empty, and otherwise returns `Account/Repository` with the `/`
separator (so `{"", "repo"}` renders as `/repo`). -/
theorem c10_project_string_empty_iff (p : Project) :
    (Project.String p = [] ↔ p.Account = [] ∧ p.Repository = []) ∧
      (p.Account ≠ [] ∨ p.Repository ≠ [] →
        Project.String p = p.Account ++ '/' :: p.Repository) := by
  by_cases h : p.Account = [] ∧ p.Repository = []
  · constructor
    · simp [Project.String, h]
    · intro hne
      rcases hne with hne | hne
      · exact absurd h.1 hne
      · exact absurd h.2 hne
  · have hne : p.Account ++ '/' :: p.Repository ≠ [] := by
      intro hq
      exact absurd (List.append_eq_nil.mp hq).2 (by simp)
    constructor
    · simp only [Project.String, h, if_false]
      constructor
      · intro hq; exact absurd hq hne
      · intro hq; exact hq.elim
    · intro _
      simp [Project.String, h]

/-- Witness for claim C10 at the partially empty project `{"", "repo"}`. -/
theorem c10_witness :
    Project.String { Account := [], Repository := gs "repo" } = '/' :: gs "repo" :=
  (c10_project_string_empty_iff { Account := [], Repository := gs "repo" }).2
    (Or.inr (by decide))

/-- Claim C8: `Filter.Set` rejects every string outside
`{completed, successful, failed, running}` (leaving the receiver unchanged)
and accepts every string inside it, with `Filter.String` round-tripping to
the same string. -/
theorem c8_filter_set_roundtrip (f : Filter) (value : GoStr) :
    (value ∉ validFilters → Filter.Set f value = (f, some filterSetErr)) ∧
      (value ∈ validFilters →
        Filter.Set f value = (⟨value⟩, none) ∧ Filter.String ⟨value⟩ = value) := by
  cases hfind : validFilters.find? (fun filter => filter = value) with
  | none =>
    have hnot : value ∉ validFilters := by
      intro hmem
      have := List.find?_eq_none.mp hfind value hmem
      simp at this
    constructor
    · intro _
      simp [Filter.Set, hfind]
    · intro hmem
      exact absurd hmem hnot
  | some w =>
    have hw : w = value := by
      have := List.find?_some hfind
      simpa using this
    have hmem : value ∈ validFilters := hw ▸ List.mem_of_find?_eq_some hfind
    constructor
    · intro hno
      exact absurd hmem hno
    · intro _
      exact ⟨by simp [Filter.Set, hfind], rfl⟩

/-- Witness for claim C8 at the concrete inputs `"running"` (accepted and
round-tripped) and `"green"` (rejected). -/
theorem c8_witness :
    Filter.Set ⟨[]⟩ (gs "green") = (⟨[]⟩, some filterSetErr) ∧
      Filter.Set ⟨[]⟩ (gs "running") = (⟨gs "running"⟩, none) :=
  ⟨(c8_filter_set_roundtrip ⟨[]⟩ (gs "green")).1 (by decide),
    ((c8_filter_set_roundtrip ⟨[]⟩ (gs "running")).2 (by decide)).1⟩

end Circleci

namespace Circleci

/-- Claim C1 fails on the code for `--filter`: the incompatibility loop in
the `recent-builds` action checks the flag names `project`, `branch` and
`status`, but the declared flag is named `filter`, so with `--all --filter`
set the check does not fire and the all-builds API call is issued (first
conjunct).  `--project` and `--branch` are caught as claimed (remaining
conjuncts). -/
theorem c1_filter_not_checked :
    recentBuildsAction true (fun f => f = gs "filter") = RecentBuildsOutcome.apiAllBuilds ∧
      recentBuildsAction true (fun f => f = gs "project")
        = RecentBuildsOutcome.earlyExit 1 (gs "--project cannot be used with --all") ∧
      recentBuildsAction true (fun f => f = gs "branch")
        = RecentBuildsOutcome.earlyExit 1 (gs "--branch cannot be used with --all") := by
  decide

/-- Claim C2 fails on the code for `test-metadata`, `retry-build` and
`cancel-build`: when the recent-build listing succeeds with zero builds,
`latestBuild` calls `handleClientError` with a `nil` error, which returns
without exiting (third conjunct), and `builds[0]` then panics (first
conjunct).  The inline resolution used by `show` and `list-artifacts`
handles the same situation with a clean `no builds` message and exit 1
(second conjunct). -/
theorem c2_latest_build_panics :
    latestBuild [] (Except.ok []) = Outcome.panic (gs "runtime error: index out of range") ∧
      inlineLatestBuildNum [] (Except.ok []) = Outcome.exit 1 (gs "no builds") ∧
      handleClientError [] none = none := by
  decide

/-- Claim C3 fails on the code: an unrecognized `--color` value and an
unreadable `--token-file` both make `app.Before` return an error, which
`main` prints to standard error without calling `os.Exit`, so the process
exit status is 0, not 1. -/
theorem c3_before_errors_exit_zero :
    appBefore (gs "bogus") [] [] (Except.ok []) = Except.error (colorModeErr (gs "bogus")) ∧
      mainRun (appRun (appBefore (gs "bogus") [] [] (Except.ok [])) (fun _ => none))
        = (0, colorModeErr (gs "bogus")) ∧
      appBefore (gs "auto") [] (gs "t.txt") (Except.error (gs "open t.txt: permission denied"))
        = Except.error (tokenFileErr (gs "open t.txt: permission denied")) ∧
      mainRun (appRun
          (appBefore (gs "auto") [] (gs "t.txt")
            (Except.error (gs "open t.txt: permission denied"))) (fun _ => none))
        = (0, tokenFileErr (gs "open t.txt: permission denied")) :=
  ⟨rfl, rfl, rfl, rfl⟩

/-- Lemma: `handleClientError` on a non-nil error always exits with code 1,
whatever the message. -/
theorem handleClientError_exits_one (token : GoStr) (e : ClientError) :
    ∃ m, handleClientError token (some e) = some (m, 1) := by
  cases e with
  | api st m2 =>
    simp only [handleClientError]
    split_ifs <;> exact ⟨_, rfl⟩
  | other m2 => exact ⟨m2, rfl⟩

/-- Claim C5: a 401/403 API error renders the no-token message when the
configured token is empty and the distinct invalid-token message otherwise;
every other error is rendered with its own message verbatim; and
`handleClientError` on any non-nil error exits with the nonzero code 1. -/
theorem c5_unauthorized_rendering (token : GoStr) (status : Nat) (msg : GoStr) (e : ClientError) :
    (status = 401 ∨ status = 403 →
      (token = [] →
        handleClientError token (some (ClientError.api status msg)) = some (noTokenMsg, 1)) ∧
      (token ≠ [] →
        handleClientError token (some (ClientError.api status msg)) = some (badTokenMsg, 1))) ∧
      noTokenMsg ≠ badTokenMsg ∧
      (status ≠ 401 → status ≠ 403 →
        handleClientError token (some (ClientError.api status msg)) = some (msg, 1)) ∧
      handleClientError token (some (ClientError.other msg)) = some (msg, 1) ∧
      (∀ m c, handleClientError token (some e) = some (m, c) → c ≠ 0) ∧
      (handleClientError token (some e)).isSome := by
  refine ⟨?_, by decide, ?_, ?_, ?_, ?_⟩
  · intro hst
    constructor
    · intro ht
      simp [handleClientError, hst, ht]
    · intro ht
      simp [handleClientError, hst, ht]
  · intro h1 h2
    simp [handleClientError, h1, h2]
  · simp [handleClientError]
  · intro m c h
    obtain ⟨m2, hm⟩ := handleClientError_exits_one token e
    rw [hm] at h
    simp only [Option.some.injEq, Prod.mk.injEq] at h
    omega
  · obtain ⟨m2, hm⟩ := handleClientError_exits_one token e
    rw [hm]
    rfl

/-- Witness for claim C5 at each concrete case: no token with 401, a token
with 403, and a non-authentication API error. -/
theorem c5_witness :
    handleClientError [] (some (ClientError.api 401 (gs "x"))) = some (noTokenMsg, 1) ∧
      handleClientError (gs "tok") (some (ClientError.api 403 (gs "x")))
        = some (badTokenMsg, 1) ∧
      handleClientError (gs "tok") (some (ClientError.api 500 (gs "server error")))
        = some (gs "server error", 1) :=
  ⟨((c5_unauthorized_rendering [] 401 (gs "x") (ClientError.other [])).1 (Or.inl rfl)).1 rfl,
    ((c5_unauthorized_rendering (gs "tok") 403 (gs "x") (ClientError.other [])).1
      (Or.inr rfl)).2 (by decide),
    ((c5_unauthorized_rendering (gs "tok") 500 (gs "server error")
      (ClientError.other [])).2.2.1 (by decide) (by decide))⟩

end Circleci

namespace Circleci

/-- Prepending lines that do not start with `origin` does not change the
result of `getCurrentProject`. -/
theorem getCurrentProject_skip (pre rest : List GoStr)
    (h : ∀ l ∈ pre, goStartsWith (gs "origin") l = false) :
    getCurrentProject (pre ++ rest) = getCurrentProject rest := by
  induction pre with
  | nil => rfl
  | cons x xs ih =>
    have hx := h x (List.mem_cons_self x xs)
    simp only [List.cons_append, getCurrentProject]
    rw [if_neg (by simp [hx])]
    exact ih (fun l hl => h l (List.mem_cons_of_mem x hl))

/-- Lemma: `getCurrentProject` on a listing whose first line starts with `origin`
parses that line. -/
theorem getCurrentProject_cons_origin (line : GoStr) (rest : List GoStr)
    (h : goStartsWith (gs "origin") line = true) :
    getCurrentProject (line :: rest) = parseOriginLine line := by
  simp only [getCurrentProject]
  rw [if_pos h]

/-- Lemma: `parseOriginLine` either succeeds with no warning or falls back to the
empty project with a warning. -/
theorem parseOriginLine_dichotomy (line : GoStr) :
    (parseOriginLine line).2 = [] ∨
      ((parseOriginLine line).1 = emptyProject ∧ (parseOriginLine line).2 ≠ []) := by
  simp only [parseOriginLine]
  split
  · right
    exact ⟨rfl, by simp⟩
  · split
    · right
      exact ⟨rfl, by simp⟩
    · left
      rfl

end Circleci

namespace Circleci

/-- Lemma: `parseOriginLine` agrees with the spec-worded `specParseOriginLine`. -/
theorem parseOriginLine_eq_spec (line : GoStr) :
    parseOriginLine line = specParseOriginLine line := by
  cases hf : goFields line with
  | nil => unfold parseOriginLine specParseOriginLine; rw [hf]; rfl
  | cons a t1 =>
    cases t1 with
    | nil => unfold parseOriginLine specParseOriginLine; rw [hf]; rfl
    | cons b t2 =>
      cases t2 with
      | nil => unfold parseOriginLine specParseOriginLine; rw [hf]; rfl
      | cons c3 t3 =>
        cases t3 with
        | cons d t4 => unfold parseOriginLine specParseOriginLine; rw [hf]; rfl
        | nil =>
          unfold parseOriginLine specParseOriginLine
          rw [hf]
          show (if (goSplit '/' ((goSplit ':' b).getLastD [])).length < 2
              then (emptyProject, [warnSlash b])
              else ({ Account := (goSplit '/' ((goSplit ':' b).getLastD [])).getD
                        ((goSplit '/' ((goSplit ':' b).getLastD [])).length - 2) [],
                      Repository := goTrimSuffix
                        ((goSplit '/' ((goSplit ':' b).getLastD [])).getLastD [])
                        (gs ".git") }, []))
            = (match (goSplit '/' ((goSplit ':' b).getLastD [])).reverse with
               | repo :: account :: _ =>
                 ({ Account := account, Repository := goTrimSuffix repo (gs ".git") }, [])
               | _ => (emptyProject, [warnSlash b]))
          generalize goSplit '/' ((goSplit ':' b).getLastD []) = parts
          cases hrev : parts.reverse with
          | nil =>
            have hp : parts = [] := by simpa using congrArg List.reverse hrev
            subst hp
            rfl
          | cons repo t =>
            cases t with
            | nil =>
              have hp : parts = [repo] := by simpa using congrArg List.reverse hrev
              subst hp
              rfl
            | cons account t2r =>
              have hp : parts = t2r.reverse ++ [account, repo] := by
                simpa using congrArg List.reverse hrev
              have hlen : ¬ parts.length < 2 := by
                rw [hp]
                simp only [List.length_append, List.length_reverse, List.length_cons,
                  List.length_nil]
                omega
              have h1 : parts.getD (parts.length - 2) [] = account := by
                rw [hp, List.getD_eq_getElem?_getD, List.getElem?_append_right (by simp)]
                simp
              have h2 : parts.getLastD [] = repo := by
                rw [List.getLastD_eq_getLast?, ← List.head?_reverse, hrev]
                rfl
              rw [if_neg hlen, h1, h2]

end Circleci

namespace Circleci

/-- Claim C6: project resolution is total and never fatal — for every
remote-listing output it yields either a project with no warning or the
empty project with a warning (first conjunct); with no line starting with
`origin` it returns the empty project and the no-origin warning (second
conjunct); when the first `origin` line has a field count other than 3, or
a URL field with fewer than 2 path segments, it returns the empty project
and the corresponding warning (third and fourth conjuncts). -/
theorem c6_resolution_never_fatal :
    (∀ lines, (getCurrentProject lines).2 = [] ∨
        ((getCurrentProject lines).1 = emptyProject ∧ (getCurrentProject lines).2 ≠ [])) ∧
      (∀ lines, (∀ l ∈ lines, goStartsWith (gs "origin") l = false) →
        getCurrentProject lines = (emptyProject, [warnNoOrigin])) ∧
      (∀ pre line post, (∀ l ∈ pre, goStartsWith (gs "origin") l = false) →
        goStartsWith (gs "origin") line = true →
        (goFields line).length ≠ 3 →
        getCurrentProject (pre ++ line :: post) = (emptyProject, [warnFields line])) ∧
      (∀ pre line post, (∀ l ∈ pre, goStartsWith (gs "origin") l = false) →
        goStartsWith (gs "origin") line = true →
        (goFields line).length = 3 →
        (goSplit '/' ((goSplit ':' ((goFields line).getD 1 [])).getLastD [])).length < 2 →
        getCurrentProject (pre ++ line :: post)
          = (emptyProject, [warnSlash ((goFields line).getD 1 [])])) := by
  refine ⟨?_, ?_, ?_, ?_⟩
  · intro lines
    induction lines with
    | nil => exact Or.inr ⟨rfl, by decide⟩
    | cons l rest ih =>
      by_cases hl : goStartsWith (gs "origin") l = true
      · rw [getCurrentProject_cons_origin l rest hl]
        exact parseOriginLine_dichotomy l
      · have hl' : goStartsWith (gs "origin") l = false := by
          simpa using hl
        have hstep : getCurrentProject (l :: rest) = getCurrentProject rest := by
          simp only [getCurrentProject]
          rw [if_neg (by simp [hl'])]
        rw [hstep]
        exact ih
  · intro lines h
    induction lines with
    | nil => rfl
    | cons l rest ih =>
      have hl := h l (List.mem_cons_self l rest)
      simp only [getCurrentProject]
      rw [if_neg (by simp [hl])]
      exact ih (fun x hx => h x (List.mem_cons_of_mem l hx))
  · intro pre line post hpre hline h3
    rw [getCurrentProject_skip pre (line :: post) hpre,
      getCurrentProject_cons_origin line post hline]
    simp only [parseOriginLine]
    rw [if_pos h3]
  · intro pre line post hpre hline h3 h4
    rw [getCurrentProject_skip pre (line :: post) hpre,
      getCurrentProject_cons_origin line post hline]
    simp only [parseOriginLine]
    rw [if_neg (by simp [h3]), if_pos h4]

/-- Witness for claim C6 at three concrete remote listings: no origin line,
an origin line with two fields, and an origin line whose URL field contains
no slash. -/
theorem c6_witness :
    getCurrentProject [gs "upstream\tgit@github.com:a/b.git (fetch)"]
        = (emptyProject, [warnNoOrigin]) ∧
      getCurrentProject [gs "origin only-two-fields"]
        = (emptyProject, [warnFields (gs "origin only-two-fields")]) ∧
      getCurrentProject [gs "origin nopath (fetch)"]
        = (emptyProject, [warnSlash (gs "nopath")]) := by
  refine ⟨?_, ?_, ?_⟩
  · exact c6_resolution_never_fatal.2.1 [gs "upstream\tgit@github.com:a/b.git (fetch)"]
      (by decide)
  · exact c6_resolution_never_fatal.2.2.1 [] (gs "origin only-two-fields") []
      (by decide) (by decide) (by decide)
  · exact c6_resolution_never_fatal.2.2.2 [] (gs "origin nopath (fetch)") []
      (by decide) (by decide) (by decide) (by decide)

/-- Claim C7 fails as stated: the code matches remote lines by the string
prefix `origin`, not by the first field being exactly `origin`.  On the
one-line listing `origin-backup git@github.com:a/b.git (fetch)` the code
resolves the project `{a, b}`, while the claim's scan (first field equal to
`origin`) would find no origin line and fall back to the empty project. -/
theorem c7_counterexample :
    getCurrentProject [gs "origin-backup git@github.com:a/b.git (fetch)"]
        ≠ claimC7Resolve [gs "origin-backup git@github.com:a/b.git (fetch)"] ∧
      getCurrentProject [gs "origin-backup git@github.com:a/b.git (fetch)"]
        = ({ Account := gs "a", Repository := gs "b" }, []) ∧
      claimC7Resolve [gs "origin-backup git@github.com:a/b.git (fetch)"]
        = (emptyProject, [warnNoOrigin]) := by
  decide

/-- Claim C7, amended: project resolution scans the remote listing for the
first line that starts with `origin`, splits that line's URL field on `:`
then `/`, takes the last two path segments as account and repository, and
strips a trailing `.git` from the repository (first conjunct, equivalence
with the spec-worded algorithm); in particular the line
`origin\tgit@github.com:myorg/myrepo.git (fetch)` resolves to the project
`{myorg, myrepo}` (second conjunct). -/
theorem c7_resolution_algorithm_amended :
    (∀ lines, getCurrentProject lines = specResolveProject lines) ∧
      getCurrentProject [gs "origin\tgit@github.com:myorg/myrepo.git (fetch)"]
        = ({ Account := gs "myorg", Repository := gs "myrepo" }, []) := by
  refine ⟨?_, by decide⟩
  intro lines
  induction lines with
  | nil => rfl
  | cons l rest ih =>
    by_cases hl : goStartsWith (gs "origin") l = true
    · rw [getCurrentProject_cons_origin l rest hl]
      simp only [specResolveProject, List.find?_cons_of_pos _ hl]
      exact parseOriginLine_eq_spec l
    · have hl' : goStartsWith (gs "origin") l = false := by
        simpa using hl
      have hstep : getCurrentProject (l :: rest) = getCurrentProject rest := by
        simp only [getCurrentProject]
        rw [if_neg (by simp [hl'])]
      have hfind : List.find? (fun line => goStartsWith (gs "origin") line) (l :: rest)
          = List.find? (fun line => goStartsWith (gs "origin") line) rest :=
        List.find?_cons_of_neg _ (by simp [hl'])
      rw [hstep, ih]
      simp only [specResolveProject, hfind]

end Circleci
